import Mathlib

/-!
Verification of the generic game-room core of the template registry:
path utilities, the standard action runtime, the JSONLogic guard evaluation
of the statechart interpreter, the schema builder defaults, and the generic
room host (message registration and joins).

JavaScript runtime values are modelled by the inductive `JVal`:
records (plain objects and Schema instances) are `obj`, keyed collections
with a `get`/`set` surface (MapSchema) are `map`, arrays are `arr`.
JS numbers are modelled as integers (definitions are JSON data and the
verified properties concern integer arithmetic); `NaN` is a separate
constructor.  The source computes with IEEE-754 doubles, which agree with
exact integer arithmetic precisely when every operand and result is an
integer of magnitude at most `2 ^ 53`; a statement whose truth depends on
that exactness (the increment cancellation law) carries the bound as a
hypothesis, while fractional values are outside the model.  Property
access on primitive values (e.g. string indexing or `"abc".length`) is not
modelled and yields `undefined`; no verified claim depends on it.
-/

namespace Ludiz

mutual

inductive JVal where
  | null
  | undef
  | bool (b : Bool)
  | num (n : Int)
  | nan
  | str (s : String)
  | obj (fields : JFields)
  | map (entries : JFields)
  | arr (elems : JList)
deriving DecidableEq

inductive JFields where
  | nil
  | cons (key : String) (value : JVal) (rest : JFields)
deriving DecidableEq

inductive JList where
  | nil
  | cons (head : JVal) (tail : JList)
deriving DecidableEq

end

/-- Build a `JFields` from a Lean list (concrete test data only). -/
def fieldsOf : List (String × JVal) → JFields
  | [] => .nil
  | (k, v) :: rest => .cons k v (fieldsOf rest)

/-- Build a `JList` from a Lean list (concrete test data only). -/
def listOf : List JVal → JList
  | [] => .nil
  | v :: rest => .cons v (listOf rest)

/-- First-match field lookup (JS property read); a missing key reads as `undefined`. -/
def fGet : JFields → String → JVal
  | .nil, _ => JVal.undef
  | .cons k v rest, key => if k = key then v else fGet rest key

/-- Field update (JS property write): replace the first matching key, else append. -/
def fSet : JFields → String → JVal → JFields
  | .nil, key, v => .cons key v .nil
  | .cons k w rest, key, v =>
    if k = key then .cons k v rest else .cons k w (fSet rest key v)

/-- Array element read; out of range reads as `undefined` (JS holes). -/
def lGet : JList → Nat → JVal
  | .nil, _ => JVal.undef
  | .cons x _, 0 => x
  | .cons _ rest, n + 1 => lGet rest n

/-- Array element write; writing past the end pads with holes, as JS index
assignment extends the array. -/
def lSet : JList → Nat → JVal → JList
  | .nil, 0, v => .cons v .nil
  | .nil, n + 1, v => .cons JVal.undef (lSet .nil n v)
  | .cons _ rest, 0, v => .cons v rest
  | .cons x rest, n + 1, v => .cons x (lSet rest n v)

def lLen : JList → Nat
  | .nil => 0
  | .cons _ rest => lLen rest + 1

def toListJ : JList → List JVal
  | .nil => []
  | .cons x rest => x :: toListJ rest

/-- Model of `x == null` in JS (loose): true exactly for `null` and `undefined`. -/
def isNullish : JVal → Bool
  | .null => true
  | JVal.undef => true
  | _ => false

/-- JS truthiness. -/
def jsTruthy : JVal → Bool
  | .null => false
  | JVal.undef => false
  | .bool b => b
  | .num n => decide (n ≠ 0)
  | .nan => false
  | .str s => decide (s ≠ "")
  | .obj _ => true
  | .map _ => true
  | .arr _ => true

/-- Model of `typeof v === "number"` (`NaN` is a number in JS). -/
def isNumberType : JVal → Bool
  | .num _ => true
  | .nan => true
  | _ => false

/-- Model of `typeof v === "object" && v !== null` (objects, arrays, map collections). -/
def isObjectType : JVal → Bool
  | .obj _ => true
  | .map _ => true
  | .arr _ => true
  | _ => false

/-- Decimal digits of a natural number; the first argument is recursion fuel
(`n + 1` always suffices). -/
def natDigits : Nat → Nat → List Char
  | 0, _ => []
  | fuel + 1, n =>
    if n < 10 then [Char.ofNat (48 + n)]
    else natDigits fuel (n / 10) ++ [Char.ofNat (48 + n % 10)]

def natToString (n : Nat) : String :=
  String.mk (natDigits (n + 1) n)

/-- JS decimal rendering of an (integer) number. -/
def jsNumToString (n : Int) : String :=
  if n < 0 then "-" ++ natToString (-n).toNat else natToString n.toNat

mutual

/-- JS `String(v)` / `ToString`: primitives render as usual, plain objects and
MapSchema instances as `[object Object]`, arrays as the comma join of their
elements. -/
def jsToString : JVal → String
  | .null => "null"
  | JVal.undef => "undefined"
  | .bool true => "true"
  | .bool false => "false"
  | .num n => jsNumToString n
  | .nan => "NaN"
  | .str s => s
  | .obj _ => "[object Object]"
  | .map _ => "[object Object]"
  | .arr xs => jsJoin xs

/-- Model of `Array.prototype.toString`, i.e. `join(",")`: `null` and `undefined`
elements render as the empty string. -/
def jsJoin : JList → String
  | .nil => ""
  | .cons x rest =>
    (match x with
     | .null => ""
     | JVal.undef => ""
     | v => jsToString v) ++
    (match rest with
     | .nil => ""
     | r => "," ++ jsJoin r)

end

/-- JS `ToPrimitive` with default hint: objects convert to their string form.
(Tree values cannot carry reference identity, which is irrelevant here.) -/
def toPrimitive (v : JVal) : JVal :=
  match v with
  | .obj _ => .str "[object Object]"
  | .map _ => .str "[object Object]"
  | .arr xs => .str (jsJoin xs)
  | p => p

/-- Integer parse of a trimmed JS numeric string: `Number("")` is `0`,
optional sign and digits, anything else is `NaN` (`none`).  Fractional and
exponent forms are outside the integer model. -/
def strDigitsVal : List Char → Option Nat
  | [] => none
  | [c] => if c.isDigit then some (c.toNat - 48) else none
  | c :: rest =>
    if c.isDigit then
      match strDigitsVal rest with
      | some v => some ((c.toNat - 48) * 10 ^ rest.length + v)
      | none => none
    else none

def strToNumOpt (s : String) : Option Int :=
  match s.toList.dropWhile (fun c => c = ' ') with
  | [] => some 0
  | '-' :: rest => (strDigitsVal rest).map (fun v => -(v : Int))
  | '+' :: rest => (strDigitsVal rest).map (fun v => (v : Int))
  | cs => (strDigitsVal cs).map (fun v => (v : Int))

/-- JS `ToNumber` on primitive values (`none` encodes `NaN`). -/
def toNumOpt : JVal → Option Int
  | .null => some 0
  | JVal.undef => none
  | .bool b => some (if b then 1 else 0)
  | .num n => some n
  | .nan => none
  | .str s => strToNumOpt s
  | _ => none

/-- JS binary `+`: after `ToPrimitive`, a string operand concatenates the
string forms of both sides; otherwise both sides are converted to numbers
(`NaN` propagates). -/
def jsAdd (a b : JVal) : JVal :=
  match toPrimitive a, toPrimitive b with
  | .str s, y => .str (s ++ jsToString y)
  | x, .str s => .str (jsToString x ++ s)
  | x, y =>
    match toNumOpt x, toNumOpt y with
    | some m, some n => .num (m + n)
    | _, _ => .nan

example : jsAdd (JVal.str "a") (JVal.num 1) = JVal.str "a1" := by decide
example : jsAdd (JVal.num 2) (JVal.num 3) = JVal.num 5 := by decide
example : jsAdd (JVal.str "a1") (JVal.num (-1)) = JVal.str "a1-1" := by decide
example : jsAdd JVal.null (JVal.num 4) = JVal.num 4 := by decide
example : jsToString (JVal.arr (.cons (JVal.num 1) (.cons JVal.null .nil))) = "1," := by
  decide

/-!
Path utilities (`path-utils.ts`)

`getByPath` and `setByPath` walk dotted paths; at each hop a map-like value
(MapSchema, with a `get`/`set` function surface) is accessed through it,
anything else through plain property access (lodash get / direct indexing).
-/

/-- Model of `String.prototype.split(".")` on the character list: all segments,
empty ones included. -/
def splitRaw : List Char → List Char → List (List Char)
  | [], acc => [acc.reverse]
  | c :: cs, acc =>
    if c = '.' then acc.reverse :: splitRaw cs [] else splitRaw cs (c :: acc)

/-- Model of `splitPath`: split on dots and drop empty segments (`filter(Boolean)`). -/
def splitPath (path : String) : List String :=
  ((splitRaw path.toList []).map (fun cs => String.mk cs)).filter (fun s => s ≠ "")

example : splitPath "players.A.score" = ["players", "A", "score"] := by decide
example : splitPath "" = [] := by decide
example : splitPath ".a..b." = ["a", "b"] := by decide

/-- A canonical array index in the lodash/JS sense: decimal digits without a
leading zero (except `"0"` itself). -/
def isCanonIndex (cs : List Char) : Bool :=
  match cs with
  | [] => false
  | ['0'] => true
  | c :: _ => decide (c ≠ '0') && cs.all (fun d => d.isDigit)

def digitsToNat (cs : List Char) : Nat :=
  cs.foldl (fun a c => a * 10 + (c.toNat - 48)) 0

def strToIndex (s : String) : Option Nat :=
  if isCanonIndex s.toList then some (digitsToNat s.toList) else none

example : strToIndex "0" = some 0 := by decide
example : strToIndex "12" = some 12 := by decide
example : strToIndex "01" = none := by decide
example : strToIndex "x" = none := by decide

/-- One plain (non map-like) property read: record field, array element at a
canonical index, `undefined` otherwise.  Property reads on primitives
(string indexing, `length`, ...) are not modelled. -/
def childGet : JVal → String → JVal
  | .obj fs, k => fGet fs k
  | .arr xs, k =>
    (match strToIndex k with
     | some i => lGet xs i
     | none => JVal.undef)
  | _, _ => JVal.undef

/-- The segment walk of `getByPath`: at each hop a nullish current value
yields `undefined`; map-likes are read through `get`, the rest through
plain property access. -/
def getParts : JVal → List String → JVal
  | current, [] => current
  | current, part :: rest =>
    if isNullish current then JVal.undef
    else
      match current with
      | .map es => getParts (fGet es part) rest
      | c => getParts (childGet c part) rest

/-- Model of `getByPath(root, path)`: an empty path returns the root. -/
def getByPath (root : JVal) (path : String) : JVal :=
  if path = "" then root else getParts root (splitPath path)

/-- The final write of `setByPath`: `current.set(last, v)` on a map-like,
lodash set otherwise.  A non-index key on an array would set a non-index
property (not modelled); property writes on primitives are silent no-ops
in JS, so primitives are returned unchanged. -/
def writeKey (current : JVal) (key : String) (v : JVal) : JVal :=
  match current with
  | .map es => .map (fSet es key v)
  | .obj fs => .obj (fSet fs key v)
  | .arr xs =>
    (match strToIndex key with
     | some i => .arr (lSet xs i v)
     | none => .arr xs)
  | other => other

/-- The segment walk of `setByPath`.  For an intermediate segment whose
current value is missing or nullish, a fresh empty plain record is stored
at that key and descended into (both in the map-like and in the plain
branch).  With no segments at all (a dot-only path), the JS code writes at
key `parts[-1]`, i.e. `undefined`, which property assignment coerces to the
string key `"undefined"`.  Descending into a primitive writes into a
detached object in JS, observable state is unchanged, so primitives are
returned unchanged. -/
def setParts : JVal → List String → JVal → JVal
  | current, [], v => writeKey current "undefined" v
  | current, [last], v => writeKey current last v
  | current, key :: r :: rest, v =>
    match current with
    | .map es =>
      if isNullish (fGet es key) then
        .map (fSet es key (setParts (.obj .nil) (r :: rest) v))
      else
        .map (fSet es key (setParts (fGet es key) (r :: rest) v))
    | .obj fs =>
      if isNullish (fGet fs key) then
        .obj (fSet fs key (setParts (.obj .nil) (r :: rest) v))
      else
        .obj (fSet fs key (setParts (fGet fs key) (r :: rest) v))
    | .arr xs =>
      (match strToIndex key with
       | some i =>
         if isNullish (lGet xs i) then
           .arr (lSet xs i (setParts (.obj .nil) (r :: rest) v))
         else
           .arr (lSet xs i (setParts (lGet xs i) (r :: rest) v))
       | none => .arr xs)
    | other => other

/-- Model of `setByPath(root, path, value)`: a falsy (empty) path is a no-op. -/
def setByPath (root : JVal) (path : String) (v : JVal) : JVal :=
  if path = "" then root else setParts root (splitPath path) v

example :
    getByPath (JVal.obj (fieldsOf [("a", JVal.obj (fieldsOf [("b", JVal.num 7)]))]))
      "a.b" = JVal.num 7 := by decide
example :
    setByPath (JVal.obj .nil) "a.b" (JVal.num 7)
      = JVal.obj (fieldsOf [("a", JVal.obj (fieldsOf [("b", JVal.num 7)]))]) := by decide
example :
    setByPath (JVal.map .nil) "a.b" (JVal.num 7)
      = JVal.map (fieldsOf [("a", JVal.obj (fieldsOf [("b", JVal.num 7)]))]) := by decide
example :
    setByPath (JVal.obj (fieldsOf [("a", JVal.num 5)])) "a.b" JVal.null
      = JVal.obj (fieldsOf [("a", JVal.num 5)]) := by decide

/-!
Roundtrip lemmas for the path walk
-/

@[simp]
theorem fGet_fSet_self : ∀ (fs : JFields) (k : String) (v : JVal),
    fGet (fSet fs k v) k = v
  | .nil, k, v => by simp [fSet, fGet]
  | .cons k' w rest, k, v => by
    by_cases h : k' = k
    · simp [fSet, fGet, h]
    · simp [fSet, fGet, h, fGet_fSet_self rest k v]

@[simp]
theorem lGet_lSet_self (xs : JList) (i : Nat) (v : JVal) :
    lGet (lSet xs i v) i = v := by
  induction i generalizing xs with
  | zero => cases xs <;> simp [lSet, lGet]
  | succ n ih => cases xs <;> simp [lSet, lGet, ih]

/-- A record or keyed collection, the containers of the path walk. -/
def isRecordOrMap : JVal → Bool
  | .obj _ => true
  | .map _ => true
  | _ => false

/-- The precondition of the `set`-then-`get` roundtrip: the walked value is a
record or keyed collection at every hop, each existing intermediate being a
container as well (missing or nullish intermediates are fine, `set` creates
an empty record there). -/
def setWalkOK : JVal → List String → Bool
  | current, [] => isRecordOrMap current
  | current, [_] => isRecordOrMap current
  | current, key :: r :: rest =>
    match current with
    | .map es => isNullish (fGet es key) || setWalkOK (fGet es key) (r :: rest)
    | .obj fs => isNullish (fGet fs key) || setWalkOK (fGet fs key) (r :: rest)
    | _ => false

theorem setWalkOK_emptyObj : ∀ parts : List String, setWalkOK (.obj .nil) parts = true
  | [] => rfl
  | [_] => rfl
  | _ :: _ :: _ => by simp [setWalkOK, fGet, isNullish]

theorem getParts_nullish_cons (c : JVal) (x : String) (xs : List String)
    (h : isNullish c = true) : getParts c (x :: xs) = JVal.undef := by
  cases c <;> simp_all [getParts, isNullish]

theorem set_get_walk :
    ∀ (rest : List String) (key : String) (current v : JVal),
      setWalkOK current (key :: rest) = true →
      getParts (setParts current (key :: rest) v) (key :: rest) = v := by
  intro rest
  induction rest with
  | nil =>
    intro key current v h
    cases current <;> simp [setWalkOK, isRecordOrMap] at h <;>
      simp [setParts, writeKey, getParts, isNullish, childGet]
  | cons r rs ih =>
    intro key current v h
    cases current with
    | obj fs =>
      by_cases hn : isNullish (fGet fs key) = true
      · have hset : setParts (JVal.obj fs) (key :: r :: rs) v
            = .obj (fSet fs key (setParts (.obj .nil) (r :: rs) v)) := by
          simp [setParts, hn]
        rw [hset]
        have hget : getParts
              (JVal.obj (fSet fs key (setParts (.obj .nil) (r :: rs) v))) (key :: r :: rs)
            = getParts (setParts (.obj .nil) (r :: rs) v) (r :: rs) := by
          simp [getParts, isNullish, childGet]
        rw [hget]
        exact ih r (.obj .nil) v (setWalkOK_emptyObj (r :: rs))
      · rw [Bool.not_eq_true] at hn
        rw [show setWalkOK (JVal.obj fs) (key :: r :: rs)
              = (isNullish (fGet fs key) || setWalkOK (fGet fs key) (r :: rs)) from rfl,
            hn, Bool.false_or] at h
        have hset : setParts (JVal.obj fs) (key :: r :: rs) v
            = .obj (fSet fs key (setParts (fGet fs key) (r :: rs) v)) := by
          simp [setParts, hn]
        rw [hset]
        have hget : getParts
              (JVal.obj (fSet fs key (setParts (fGet fs key) (r :: rs) v))) (key :: r :: rs)
            = getParts (setParts (fGet fs key) (r :: rs) v) (r :: rs) := by
          simp [getParts, isNullish, childGet]
        rw [hget]
        exact ih r (fGet fs key) v h
    | map es =>
      by_cases hn : isNullish (fGet es key) = true
      · have hset : setParts (JVal.map es) (key :: r :: rs) v
            = .map (fSet es key (setParts (.obj .nil) (r :: rs) v)) := by
          simp [setParts, hn]
        rw [hset]
        have hget : getParts
              (JVal.map (fSet es key (setParts (.obj .nil) (r :: rs) v))) (key :: r :: rs)
            = getParts (setParts (.obj .nil) (r :: rs) v) (r :: rs) := by
          simp [getParts, isNullish]
        rw [hget]
        exact ih r (.obj .nil) v (setWalkOK_emptyObj (r :: rs))
      · rw [Bool.not_eq_true] at hn
        rw [show setWalkOK (JVal.map es) (key :: r :: rs)
              = (isNullish (fGet es key) || setWalkOK (fGet es key) (r :: rs)) from rfl,
            hn, Bool.false_or] at h
        have hset : setParts (JVal.map es) (key :: r :: rs) v
            = .map (fSet es key (setParts (fGet es key) (r :: rs) v)) := by
          simp [setParts, hn]
        rw [hset]
        have hget : getParts
              (JVal.map (fSet es key (setParts (fGet es key) (r :: rs) v))) (key :: r :: rs)
            = getParts (setParts (fGet es key) (r :: rs) v) (r :: rs) := by
          simp [getParts, isNullish]
        rw [hget]
        exact ih r (fGet es key) v h
    | null => simp [setWalkOK] at h
    | undef => simp [setWalkOK] at h
    | bool b => simp [setWalkOK] at h
    | num n => simp [setWalkOK] at h
    | nan => simp [setWalkOK] at h
    | str s => simp [setWalkOK] at h
    | arr xs => simp [setWalkOK] at h

theorem get_set_of_get_ne_undef :
    ∀ (rest : List String) (key : String) (root w : JVal),
      getParts root (key :: rest) ≠ JVal.undef →
      getParts (setParts root (key :: rest) w) (key :: rest) = w := by
  intro rest
  induction rest with
  | nil =>
    intro key root w h
    cases root with
    | obj fs => simp [setParts, writeKey, getParts, isNullish, childGet]
    | map es => simp [setParts, writeKey, getParts, isNullish, childGet]
    | arr xs =>
      simp only [getParts, isNullish, if_false, Bool.false_eq_true, childGet] at h ⊢
      cases hix : strToIndex key with
      | none => simp [getParts, hix, childGet] at h
      | some i =>
        simp [getParts, hix, childGet, setParts, writeKey, isNullish]
    | null => simp [getParts, isNullish] at h
    | undef => simp [getParts, isNullish] at h
    | bool b => simp [getParts, isNullish, childGet] at h
    | num n => simp [getParts, isNullish, childGet] at h
    | nan => simp [getParts, isNullish, childGet] at h
    | str s => simp [getParts, isNullish, childGet] at h
  | cons r rs ih =>
    intro key root w h
    cases root with
    | obj fs =>
      have hnn : isNullish (fGet fs key) = false := by
        by_contra hc
        simp only [Bool.not_eq_false] at hc
        rw [show getParts (JVal.obj fs) (key :: r :: rs)
              = getParts (fGet fs key) (r :: rs) by simp [getParts, isNullish, childGet],
            getParts_nullish_cons _ _ _ hc] at h
        exact h rfl
      have hrec : getParts (fGet fs key) (r :: rs) ≠ JVal.undef := by
        intro he
        rw [show getParts (JVal.obj fs) (key :: r :: rs)
              = getParts (fGet fs key) (r :: rs) by simp [getParts, isNullish, childGet],
            he] at h
        exact h rfl
      have hset : setParts (JVal.obj fs) (key :: r :: rs) w
          = .obj (fSet fs key (setParts (fGet fs key) (r :: rs) w)) := by
        simp [setParts, hnn]
      rw [hset]
      have hget : getParts
            (JVal.obj (fSet fs key (setParts (fGet fs key) (r :: rs) w))) (key :: r :: rs)
          = getParts (setParts (fGet fs key) (r :: rs) w) (r :: rs) := by
        simp [getParts, isNullish, childGet]
      rw [hget]
      exact ih r (fGet fs key) w hrec
    | map es =>
      have hnn : isNullish (fGet es key) = false := by
        by_contra hc
        simp only [Bool.not_eq_false] at hc
        rw [show getParts (JVal.map es) (key :: r :: rs)
              = getParts (fGet es key) (r :: rs) by simp [getParts, isNullish],
            getParts_nullish_cons _ _ _ hc] at h
        exact h rfl
      have hrec : getParts (fGet es key) (r :: rs) ≠ JVal.undef := by
        intro he
        rw [show getParts (JVal.map es) (key :: r :: rs)
              = getParts (fGet es key) (r :: rs) by simp [getParts, isNullish],
            he] at h
        exact h rfl
      have hset : setParts (JVal.map es) (key :: r :: rs) w
          = .map (fSet es key (setParts (fGet es key) (r :: rs) w)) := by
        simp [setParts, hnn]
      rw [hset]
      have hget : getParts
            (JVal.map (fSet es key (setParts (fGet es key) (r :: rs) w))) (key :: r :: rs)
          = getParts (setParts (fGet es key) (r :: rs) w) (r :: rs) := by
        simp [getParts, isNullish]
      rw [hget]
      exact ih r (fGet es key) w hrec
    | arr xs =>
      cases hix : strToIndex key with
      | none =>
        rw [show getParts (JVal.arr xs) (key :: r :: rs)
              = getParts (childGet (JVal.arr xs) key) (r :: rs) by
                simp [getParts, isNullish]] at h
        simp [childGet, hix, getParts_nullish_cons, isNullish] at h
      | some i =>
        have hchild : childGet (JVal.arr xs) key = lGet xs i := by simp [childGet, hix]
        have hgp : getParts (JVal.arr xs) (key :: r :: rs)
            = getParts (lGet xs i) (r :: rs) := by
          simp [getParts, isNullish, hchild]
        have hnn : isNullish (lGet xs i) = false := by
          by_contra hc
          simp only [Bool.not_eq_false] at hc
          rw [hgp, getParts_nullish_cons _ _ _ hc] at h
          exact h rfl
        have hrec : getParts (lGet xs i) (r :: rs) ≠ JVal.undef := by
          intro he
          rw [hgp, he] at h
          exact h rfl
        have hset : setParts (JVal.arr xs) (key :: r :: rs) w
            = .arr (lSet xs i (setParts (lGet xs i) (r :: rs) w)) := by
          simp [setParts, hix, hnn]
        rw [hset]
        have hget : getParts
              (JVal.arr (lSet xs i (setParts (lGet xs i) (r :: rs) w))) (key :: r :: rs)
            = getParts (setParts (lGet xs i) (r :: rs) w) (r :: rs) := by
          simp [getParts, isNullish, childGet, hix]
        rw [hget]
        exact ih r (lGet xs i) w hrec
    | null => simp [getParts_nullish_cons, isNullish] at h
    | undef => simp [getParts_nullish_cons, isNullish] at h
    | bool b =>
      rw [show getParts (JVal.bool b) (key :: r :: rs)
            = getParts (childGet (JVal.bool b) key) (r :: rs) by simp [getParts, isNullish]] at h
      simp [childGet, getParts_nullish_cons, isNullish] at h
    | num n =>
      rw [show getParts (JVal.num n) (key :: r :: rs)
            = getParts (childGet (JVal.num n) key) (r :: rs) by simp [getParts, isNullish]] at h
      simp [childGet, getParts_nullish_cons, isNullish] at h
    | nan =>
      rw [show getParts JVal.nan (key :: r :: rs)
            = getParts (childGet JVal.nan key) (r :: rs) by simp [getParts, isNullish]] at h
      simp [childGet, getParts_nullish_cons, isNullish] at h
    | str s =>
      rw [show getParts (JVal.str s) (key :: r :: rs)
            = getParts (childGet (JVal.str s) key) (r :: rs) by simp [getParts, isNullish]] at h
      simp [childGet, getParts_nullish_cons, isNullish] at h

/-!
Schema builder (`schema-builder.ts`)

The DSL declares classes whose fields are primitives, refs, maps or arrays.
A generated constructor initialises every map field to a fresh empty keyed
collection and every array field to a fresh empty ordered collection; other
fields start undefined.
-/

inductive FieldDef where
  | prim (t : String)
  | refTo (className : String)
  | mapOf (className : String)
  | arrayOf (elem : String)
deriving DecidableEq

/-- One class definition: field name to field type. -/
def ClassDef : Type := List (String × FieldDef)

/-- The state DSL: root class name, class table, optional defaults. -/
structure StateDSL where
  root : String
  classes : List (String × ClassDef)
  defaults : Option (List (String × List (String × JVal)))

def alookup {α : Type} : List (String × α) → String → Option α
  | [], _ => none
  | (k, v) :: rest, key => if k = key then some v else alookup rest key

/-- The constructor body of a generated schema class: map fields become empty
`MapSchema`s, array fields empty `ArraySchema`s, nothing else is assigned. -/
def newInstanceFields : List (String × FieldDef) → JFields
  | [] => .nil
  | (f, .mapOf _) :: rest => .cons f (.map .nil) (newInstanceFields rest)
  | (f, .arrayOf _) :: rest => .cons f (.arr .nil) (newInstanceFields rest)
  | (_, _) :: rest => newInstanceFields rest

def newInstance (cd : ClassDef) : JVal :=
  .obj (newInstanceFields cd)

/-- Property write on an instance (`instance[fieldName] = v`); primitives are
untouched (unreachable: instances are objects). -/
def objSetField (inst : JVal) (f : String) (v : JVal) : JVal :=
  match inst with
  | .obj fs => .obj (fSet fs f v)
  | other => other

/-- Property read on an instance. -/
def objGetField (inst : JVal) (f : String) : JVal :=
  match inst with
  | .obj fs => fGet fs f
  | _ => JVal.undef

/-- The entry loop of `applyDefaults`: a default value that is a non-null
object is never assigned (when the field is missing the code `continue`s,
and when it is present the branch falls through with no assignment); any
other default value is written to the field. -/
def applyDefaultsFields (inst : JVal) : List (String × JVal) → JVal
  | [] => inst
  | (fieldName, defaultValue) :: rest =>
    if defaultValue ≠ JVal.null ∧ isObjectType defaultValue = true then
      applyDefaultsFields inst rest
    else
      applyDefaultsFields (objSetField inst fieldName defaultValue) rest

/-- Model of `applyDefaults(instance, className, allDefaults)`: no defaults for the
class means no change. -/
def applyDefaults (inst : JVal) (className : String)
    (allDefaults : List (String × List (String × JVal))) : JVal :=
  match alookup allDefaults className with
  | none => inst
  | some defaults => applyDefaultsFields inst defaults

/-- Model of `instantiateWithDefaults(dsl, StateClass)`: construct the root instance
and apply the root class defaults when a defaults section exists. -/
def instantiateWithDefaults (dsl : StateDSL) (stateClassDef : ClassDef) : JVal :=
  let state := newInstance stateClassDef
  match dsl.defaults with
  | some ds => applyDefaults state dsl.root ds
  | none => state

/-!
Action runtime (`runtime-actions.ts`)

Each standard action receives the interpreter context and a parameter
record.  The model keeps the parts of the context the actions can affect or
read: the replicated `state`, the static `data`, the machine `context`, and
the room's dynamic class table.  `broadcast` and `log` touch no replicated
state (their side channels are not modelled); `scheduleActions` defers its
batch through `setTimeout`, so the immediate replicated state is unchanged.
-/

structure Env where
  data : JVal
  context : JVal
  classes : List (String × ClassDef)

def emptyEnv : Env :=
  { data := .obj .nil, context := .obj .nil, classes := [] }

/-- Model of `const { x } = params || {}`: a field read on the parameter record;
non-record parameters destructure every field to `undefined`. -/
def jvParam (params : JVal) (key : String) : JVal :=
  match params with
  | .obj fs => fGet fs key
  | _ => JVal.undef

/-!
JSONLogic evaluation (`json-logic-js` as the repository uses it)

`apply` maps over arrays, returns non-logic values (anything but a
single-key record) unchanged, short-circuits `if`/`and`/`or`, and otherwise
evaluates the arguments and dispatches on the operator name; an operator
name outside the table throws `Unrecognized operation <op>`.  The modelled
operator subset is the one the specification requires (equality, ordering,
logic, arithmetic, membership, `var`); genuinely unknown names throw in the
model exactly as in the source. -/

mutual

/-- Plain JSON snapshot of a value (`toJSON()` on Schema/MapSchema):
keyed collections become plain records, recursively. -/
def toPlain : JVal → JVal
  | .map es => .obj (toPlainFields es)
  | .obj fs => .obj (toPlainFields fs)
  | .arr xs => .arr (toPlainList xs)
  | v => v

def toPlainFields : JFields → JFields
  | .nil => .nil
  | .cons k v rest => .cons k (toPlain v) (toPlainFields rest)

def toPlainList : JList → JList
  | .nil => .nil
  | .cons v rest => .cons (toPlain v) (toPlainList rest)

end

/-- JS `===`: reference equality on objects is not representable on trees and
is modelled as false (guards comparing two distinct objects). -/
def jsStrictEq (a b : JVal) : Bool :=
  match a, b with
  | .nan, _ => false
  | _, .nan => false
  | .obj _, _ => false
  | _, .obj _ => false
  | .map _, _ => false
  | _, .map _ => false
  | .arr _, _ => false
  | _, .arr _ => false
  | x, y => decide (x = y)

/-- JS `==`: `null`/`undefined` only equal each other; strings compare as
strings; otherwise both sides coerce to numbers; object operands coerce via
`ToPrimitive` (two object operands compare by reference, modelled false). -/
def jsLooseEq (a b : JVal) : Bool :=
  if isObjectType a && isObjectType b then false
  else
    match toPrimitive a, toPrimitive b with
    | .null, .null => true
    | .null, JVal.undef => true
    | JVal.undef, .null => true
    | JVal.undef, JVal.undef => true
    | .null, _ => false
    | _, .null => false
    | JVal.undef, _ => false
    | _, JVal.undef => false
    | .str s, .str t => decide (s = t)
    | x, y =>
      match toNumOpt x, toNumOpt y with
      | some m, some n => decide (m = n)
      | _, _ => false

/-- JS `<`: two string operands compare lexicographically, anything else
numerically; a `NaN` operand makes every comparison false. -/
def jsLtOp (a b : JVal) : Bool :=
  match toPrimitive a, toPrimitive b with
  | .str s, .str t => decide (s < t)
  | x, y =>
    match toNumOpt x, toNumOpt y with
    | some m, some n => decide (m < n)
    | _, _ => false

def jsLeOp (a b : JVal) : Bool :=
  match toPrimitive a, toPrimitive b with
  | .str s, .str t => decide (s ≤ t)
  | x, y =>
    match toNumOpt x, toNumOpt y with
    | some m, some n => decide (m ≤ n)
    | _, _ => false

def jsGtOp (a b : JVal) : Bool := jsLtOp b a

def jsGeOp (a b : JVal) : Bool := jsLeOp b a

/-- Model of `ToNumber` after `ToPrimitive` (`none` encodes `NaN`). -/
def jsToNum (v : JVal) : Option Int := toNumOpt (toPrimitive v)

/-- Model of `parseFloat` on the string form: leading spaces, optional sign, then a
nonempty digit prefix; fractional forms are outside the integer model. -/
def leadingDigits (cs : List Char) : Option Nat :=
  match cs.takeWhile Char.isDigit with
  | [] => none
  | ds => some (digitsToNat ds)

def parseIntLeading (cs : List Char) : Option Int :=
  match cs.dropWhile (fun c => c = ' ') with
  | '-' :: rest => (leadingDigits rest).map (fun v => -(v : Int))
  | '+' :: rest => (leadingDigits rest).map (fun v => (v : Int))
  | rest => (leadingDigits rest).map (fun v => (v : Int))

def jlParseFloat (v : JVal) : Option Int :=
  parseIntLeading (jsToString v).toList

def optToNumVal : Option Int → JVal
  | some n => .num n
  | none => .nan

/-- JSONLogic `+`: reduce over `parseFloat` with initial `0`. -/
def jlSumGo : Option Int → JList → Option Int
  | acc, .nil => acc
  | acc, .cons x rest =>
    jlSumGo
      (match acc, jlParseFloat x with
       | some a, some b => some (a + b)
       | _, _ => none) rest

def jlSum (args : JList) : JVal := optToNumVal (jlSumGo (some 0) args)

/-- JSONLogic `-`: unary numeric negation with one argument, JS subtraction
with two. -/
def jlSub (args : JList) : JVal :=
  match lGet args 1 with
  | JVal.undef =>
    (match jsToNum (lGet args 0) with
     | some n => .num (-n)
     | none => .nan)
  | b =>
    (match jsToNum (lGet args 0), jsToNum b with
     | some m, some n => .num (m - n)
     | _, _ => .nan)

/-- JSONLogic `*`: reduce over `parseFloat` with no initial value; an empty
argument list throws and a single argument is returned unchanged, as
`Array.prototype.reduce` does. -/
def jlProdGo : Option Int → JList → Option Int
  | acc, .nil => acc
  | acc, .cons x rest =>
    jlProdGo
      (match acc, jlParseFloat x with
       | some a, some b => some (a * b)
       | _, _ => none) rest

def jlProd (args : JList) : Except String JVal :=
  match args with
  | .nil => Except.error "Reduce of empty array with no initial value"
  | .cons a .nil => Except.ok a
  | .cons a rest => Except.ok (optToNumVal (jlProdGo (jlParseFloat a) rest))

/-- JS `/`: results that are not integers (including division by zero, which
yields an infinity) are outside the integer model and map to `NaN`. -/
def jlDiv (a b : JVal) : JVal :=
  match jsToNum a, jsToNum b with
  | some m, some n => if n ≠ 0 ∧ n ∣ m then .num (m / n) else .nan
  | _, _ => .nan

/-- JS `%`: truncated remainder with the dividend's sign. -/
def jlMod (a b : JVal) : JVal :=
  match jsToNum a, jsToNum b with
  | some m, some n => if n = 0 then .nan else .num (Int.tmod m n)
  | _, _ => .nan

def charsStartsWith : List Char → List Char → Bool
  | [], _ => true
  | _ :: _, [] => false
  | a :: as, b :: bs => a == b && charsStartsWith as bs

def charsContains (needle : List Char) : List Char → Bool
  | [] => charsStartsWith needle []
  | c :: cs => charsStartsWith needle (c :: cs) || charsContains needle cs

def jlistAnyStrict (a : JVal) : JList → Bool
  | .nil => false
  | .cons x rest => jsStrictEq x a || jlistAnyStrict a rest

/-- JSONLogic `in`: substring test on a string, strict `indexOf` on an
array, false otherwise. -/
def jlIn (a b : JVal) : Bool :=
  match b with
  | .str t => charsContains (jsToString a).toList t.toList
  | .arr xs => jlistAnyStrict a xs
  | _ => false

/-- Property step of the `var` operator: the raw interpreter state reaches
the guard view, where MapSchema proxies string keys to entries. -/
def jlProp (data : JVal) (k : String) : JVal :=
  match data with
  | .obj fs => fGet fs k
  | .map es => fGet es k
  | .arr xs =>
    (match strToIndex k with
     | some i => lGet xs i
     | none => JVal.undef)
  | _ => JVal.undef

/-- Model of `String.prototype.split(".")` keeping empty segments, as `var` does. -/
def jlSplitString (s : String) : List String :=
  (splitRaw s.toList []).map (fun cs => String.mk cs)

def jlVarGo : JVal → List String → JVal → JVal
  | data, [], _ => data
  | data, k :: rest, notFound =>
    if isNullish data then notFound
    else
      match jlProp data k with
      | JVal.undef => notFound
      | next => jlVarGo next rest notFound

/-- JSONLogic `var`: an empty, null or undefined selector returns the whole
view; otherwise the dotted selector is walked, a miss yielding the default
(second argument, `null` when absent). -/
def jlVar (data : JVal) (a : JVal) (b : JVal) : JVal :=
  let notFound := if b = JVal.undef then JVal.null else b
  match a with
  | JVal.undef => data
  | .null => data
  | .str "" => data
  | pathV => jlVarGo data (jlSplitString (jsToString pathV)) notFound

/-- Operator dispatch on evaluated arguments; an unrecognized operator
throws, as `json-logic-js` does. -/
def jlOperation (op : String) (args : JList) (data : JVal) : Except String JVal :=
  let a := lGet args 0
  let b := lGet args 1
  if op = "var" then Except.ok (jlVar data a b)
  else if op = "==" then Except.ok (.bool (jsLooseEq a b))
  else if op = "===" then Except.ok (.bool (jsStrictEq a b))
  else if op = "!=" then Except.ok (.bool (!jsLooseEq a b))
  else if op = "!==" then Except.ok (.bool (!jsStrictEq a b))
  else if op = "!" then Except.ok (.bool (!jsTruthy a))
  else if op = "!!" then Except.ok (.bool (jsTruthy a))
  else if op = ">" then Except.ok (.bool (jsGtOp a b))
  else if op = ">=" then Except.ok (.bool (jsGeOp a b))
  else if op = "<" then
    Except.ok (.bool
      (match lGet args 2 with
       | JVal.undef => jsLtOp a b
       | c => jsLtOp a b && jsLtOp b c))
  else if op = "<=" then
    Except.ok (.bool
      (match lGet args 2 with
       | JVal.undef => jsLeOp a b
       | c => jsLeOp a b && jsLeOp b c))
  else if op = "+" then Except.ok (jlSum args)
  else if op = "-" then Except.ok (jlSub args)
  else if op = "*" then jlProd args
  else if op = "/" then Except.ok (jlDiv a b)
  else if op = "%" then Except.ok (jlMod a b)
  else if op = "in" then Except.ok (.bool (jlIn a b))
  else Except.error ("Unrecognized operation " ++ op)

def exceptMapJList (f : JVal → Except String JVal) : JList → Except String JList
  | .nil => Except.ok .nil
  | .cons x rest => do
    let r ← f x
    let rs ← exceptMapJList f rest
    Except.ok (.cons r rs)

/-- Short-circuit `and`: return the first falsy evaluated argument, else the
last one (`undefined` when there are none). -/
def jlAndList (ev : JVal → Except String JVal) : JVal → JList → Except String JVal
  | current, .nil => Except.ok current
  | _, .cons x rest => do
    let c ← ev x
    if jsTruthy c = true then jlAndList ev c rest else Except.ok c

/-- Short-circuit `or`: return the first truthy evaluated argument, else the
last one. -/
def jlOrList (ev : JVal → Except String JVal) : JVal → JList → Except String JVal
  | current, .nil => Except.ok current
  | _, .cons x rest => do
    let c ← ev x
    if jsTruthy c = true then Except.ok c else jlOrList ev c rest

/-- Short-circuit chained `if`: condition/consequent pairs with an optional
trailing alternative; an exhausted chain yields `null`. -/
def jlIfChain (ev : JVal → Except String JVal) : JList → Except String JVal
  | .nil => Except.ok JVal.null
  | .cons e .nil => ev e
  | .cons c (.cons t rest) => do
    let r ← ev c
    if jsTruthy r = true then ev t else jlIfChain ev rest

/-- Model of `jsonLogic.apply(logic, data)`.  The first argument is recursion fuel
(the source recurses without bound over the finite logic tree; any fuel at
least the tree depth gives the source behaviour). -/
def jlApply : Nat → JVal → JVal → Except String JVal
  | 0, _, _ => Except.error "recursion depth exceeded"
  | fuel + 1, logic, data =>
    match logic with
    | .arr xs => do
      let rs ← exceptMapJList (fun l => jlApply fuel l data) xs
      Except.ok (.arr rs)
    | .obj (.cons op rawArgs .nil) =>
      let args : JList :=
        match rawArgs with
        | .arr xs => xs
        | v => .cons v .nil
      if op = "if" then jlIfChain (fun l => jlApply fuel l data) args
      else if op = "?:" then jlIfChain (fun l => jlApply fuel l data) args
      else if op = "and" then jlAndList (fun l => jlApply fuel l data) JVal.undef args
      else if op = "or" then jlOrList (fun l => jlApply fuel l data) JVal.undef args
      else do
        let vs ← exceptMapJList (fun l => jlApply fuel l data) args
        jlOperation op vs data
    | notLogic => Except.ok notLogic

example :
    jlApply 9
      (JVal.obj (fieldsOf [("==",
        JVal.arr (listOf [JVal.obj (fieldsOf [("var", JVal.str "x")]), JVal.num 2]))]))
      (JVal.obj (fieldsOf [("x", JVal.num 2)]))
      = Except.ok (JVal.bool true) := rfl

example :
    jlApply 9 (JVal.obj (fieldsOf [("frobnicate", JVal.arr .nil)])) (JVal.obj .nil)
      = Except.error "Unrecognized operation frobnicate" := rfl

/-!
The standard actions

Each action takes the environment, the replicated state and its parameter
record, and returns the updated replicated state.  Paths are JS strings; a
truthy non-string path would make `path.split` throw inside the action
before any mutation, which the interpreter catches, so those branches
return the state unchanged.
-/

/-- Model of `setState {path, value}`: skipped when the path is falsy or the value is
`undefined`. -/
def setState (_env : Env) (state : JVal) (params : JVal) : JVal :=
  let path := jvParam params "path"
  let value := jvParam params "value"
  if jsTruthy path = true ∧ value ≠ JVal.undef then
    match path with
    | .str p => setByPath state p value
    | _ => state
  else state

/-- Model of `increment {path, delta = 1}`: read the current value, defaulting any
falsy read to `0`, add `delta` with JS `+`, and write the result back. -/
def increment (_env : Env) (state : JVal) (params : JVal) : JVal :=
  let path := jvParam params "path"
  let delta :=
    match jvParam params "delta" with
    | JVal.undef => JVal.num 1
    | d => d
  if jsTruthy path = true then
    match path with
    | .str p =>
      let g := getByPath state p
      let current := if jsTruthy g = true then g else JVal.num 0
      setByPath state p (jsAdd current delta)
    | _ => state
  else state

/-- Model of `setFromData {statePath, dataPath}`: copy a value from the static data
into the replicated state. -/
def setFromData (env : Env) (state : JVal) (params : JVal) : JVal :=
  let statePath := jvParam params "statePath"
  let dataPath := jvParam params "dataPath"
  if jsTruthy statePath = true ∧ jsTruthy dataPath = true then
    match statePath, dataPath with
    | .str sp, .str dp => setByPath state sp (getByPath env.data dp)
    | _, _ => state
  else state

/-- Model of `incrementIfEqual {path, equalsPath, value, delta = 1}`: when the state
value at `equalsPath` is non-nullish and string-equals the supplied value,
increment at `path` (falsy current value read as `0`, non-number `delta`
read as `1`); otherwise no change. -/
def incrementIfEqual (_env : Env) (state : JVal) (params : JVal) : JVal :=
  let path := jvParam params "path"
  let equalsPath := jvParam params "equalsPath"
  let value := jvParam params "value"
  let delta :=
    match jvParam params "delta" with
    | JVal.undef => JVal.num 1
    | d => d
  if jsTruthy path = false ∨ jsTruthy equalsPath = false then state
  else
    match path, equalsPath with
    | .str p, .str ep =>
      let expected := getByPath state ep
      if isNullish expected = false ∧ jsToString expected = jsToString value then
        let g := getByPath state p
        let current := if jsTruthy g = true then g else JVal.num 0
        let d := if isNumberType delta = true then delta else JVal.num 1
        setByPath state p (jsAdd current d)
      else state
    | _, _ => state

/-- Model of `Object.assign(target, source)`: copy the source record's fields onto the
target, in order.  A non-record source contributes nothing (string sources
would contribute index properties, which is not modelled). -/
def assignFields (tf : JFields) : JFields → JFields
  | .nil => tf
  | .cons k v rest => assignFields (fSet tf k v) rest

def objAssign (target : JVal) (source : JVal) : JVal :=
  match target, source with
  | .obj tf, .obj sf => .obj (assignFields tf sf)
  | t, _ => t

/-- Model of `createInstance {className, statePath, data?}`: construct an instance of
the dynamic class, assign the supplied fields, and write it at the path. -/
def createInstance (env : Env) (state : JVal) (params : JVal) : JVal :=
  let className := jvParam params "className"
  let statePath := jvParam params "statePath"
  let data := jvParam params "data"
  if jsTruthy className = true ∧ jsTruthy statePath = true then
    match className, statePath with
    | .str cn, .str sp =>
      match alookup env.classes cn with
      | some cdef =>
        let inst := if jsTruthy data = true then objAssign (newInstance cdef) data
                    else newInstance cdef
        setByPath state sp inst
      | none => state
    | _, _ => state
  else state

/-- Model of `broadcast {event, data?}` emits to all clients; replicated state is
untouched. -/
def broadcast (_env : Env) (state : JVal) (_params : JVal) : JVal := state

/-- Model of `log {message}` writes to the server console only. -/
def log (_env : Env) (state : JVal) (_params : JVal) : JVal := state

/-- Model of `scheduleActions {delayMs, actions}` defers the batch via `setTimeout`;
the immediate replicated state is unchanged. -/
def scheduleActions (_env : Env) (state : JVal) (_params : JVal) : JVal := state

/-- The index resolution shared by `setFromArray` and
`createInstanceFromArray`: a literal `index` of number type, overridden by a
number read from the state at `indexStatePath` when that parameter is
truthy.  The outer `none` marks the branch where a truthy non-string
`indexStatePath` would make `getByPath` throw (no mutation). -/
def resolveIndexChecked (state : JVal) (index : JVal) (indexStatePath : JVal) :
    Option (Option JVal) :=
  let idx0 : Option JVal := if isNumberType index = true then some index else none
  if jsTruthy indexStatePath = true then
    match indexStatePath with
    | .str isp =>
      let fromState := getByPath state isp
      some (if isNumberType fromState = true then some fromState else idx0)
    | _ => none
  else some idx0

/-- Model of `idx == null || idx < 0 || idx >= arr.length`: in JS all three
comparisons are false for `NaN`, which therefore passes the check. -/
def idxOutOfRange (idx : Option JVal) (len : Nat) : Bool :=
  match idx with
  | none => true
  | some (.num i) => decide (i < 0 ∨ (len : Int) ≤ i)
  | some _ => false

/-- Model of `setFromArray {statePath, arrayPath, key?, index?, indexStatePath?}`:
pick an element of a static-data array by resolved index, optionally
project one field (`item?.[key]`, with the key coerced to a property
string), and write it to the state path. -/
def setFromArray (env : Env) (state : JVal) (params : JVal) : JVal :=
  let statePath := jvParam params "statePath"
  let arrayPath := jvParam params "arrayPath"
  let key := jvParam params "key"
  let index := jvParam params "index"
  let indexStatePath := jvParam params "indexStatePath"
  if jsTruthy statePath = false ∨ jsTruthy arrayPath = false then state
  else
    match statePath, arrayPath with
    | .str sp, .str ap =>
      match getByPath env.data ap with
      | .arr xs =>
        match resolveIndexChecked state index indexStatePath with
        | none => state
        | some idx =>
          if idxOutOfRange idx (lLen xs) = true then state
          else
            let item :=
              match idx with
              | some (.num i) => lGet xs i.toNat
              | _ => JVal.undef
            let value :=
              if jsTruthy key = true then childGet item (jsToString key) else item
            setByPath state sp value
      | _ => state
    | _, _ => state

/-- Model of `createInstanceFromArray {className, statePath, arrayPath, index?,
indexStatePath?}`: like `setFromArray`, but the selected record populates a
fresh instance of the dynamic class. -/
def createInstanceFromArray (env : Env) (state : JVal) (params : JVal) : JVal :=
  let className := jvParam params "className"
  let statePath := jvParam params "statePath"
  let arrayPath := jvParam params "arrayPath"
  let index := jvParam params "index"
  let indexStatePath := jvParam params "indexStatePath"
  if jsTruthy className = false ∨ jsTruthy statePath = false ∨
      jsTruthy arrayPath = false then state
  else
    match className, statePath, arrayPath with
    | .str cn, .str sp, .str ap =>
      match getByPath env.data ap with
      | .arr xs =>
        match resolveIndexChecked state index indexStatePath with
        | none => state
        | some idx =>
          if idxOutOfRange idx (lLen xs) = true then state
          else
            let dataItem :=
              match idx with
              | some (.num i) => lGet xs i.toNat
              | _ => JVal.undef
            match alookup env.classes cn with
            | none => state
            | some cdef => setByPath state sp (objAssign (newInstance cdef) dataItem)
      | _ => state
    | _, _, _ => state

/-- Model of `ensureInstanceAtPath {className, statePath, data?}`: idempotent create;
no-op when something truthy already lives at the path. -/
def ensureInstanceAtPath (env : Env) (state : JVal) (params : JVal) : JVal :=
  let className := jvParam params "className"
  let statePath := jvParam params "statePath"
  let data := jvParam params "data"
  if jsTruthy className = false ∨ jsTruthy statePath = false then state
  else
    match className, statePath with
    | .str cn, .str sp =>
      match alookup env.classes cn with
      | none => state
      | some cdef =>
        if jsTruthy (getByPath state sp) = true then state
        else
          let inst :=
            if jsTruthy data = true ∧ isObjectType data = true then
              objAssign (newInstance cdef) data
            else newInstance cdef
          setByPath state sp inst
    | _, _ => state

/-!
Action dispatch and the `when` combinator

`when {cond, then, else}` takes a plain JSON snapshot of the state, builds
the view `{state, data, context}`, evaluates `cond` through JSONLogic
(an absent or falsy `cond` selects the `then` branch), and runs the chosen
branch through the catalogue lookup loop: a descriptor whose `type` is not
a catalogue key is skipped with a warning, the remaining descriptors still
run.  A JSONLogic throw escapes `when` before any branch action has run;
the interpreter's action wrapper catches it, so the state is unchanged.
-/

/-- Model of `Object.keys(standardActions)`, the action catalogue. -/
def standardActionNames : List String :=
  ["setState", "increment", "setFromData", "createInstance", "broadcast", "log",
   "incrementIfEqual", "createInstanceFromArray", "scheduleActions", "setFromArray",
   "when", "ensureInstanceAtPath"]

/-- A descriptor is known when its `type` names a catalogue entry. -/
def isKnownActionDescriptor (a : JVal) : Bool :=
  match jvParam a "type" with
  | .str t => decide (t ∈ standardActionNames)
  | _ => false

/-- Model of `Array.isArray(x) ? x : []` on a branch parameter. -/
def asActionList (v : JVal) : List JVal :=
  match v with
  | .arr xs => toListJ xs
  | _ => []

/-- Branch selection of `when`: the snapshot view, the `cond` evaluation
(`cond ? jsonLogic.apply(cond, view) : true`), and the chosen branch;
`none` when the evaluation throws. -/
def whenBranch (fuel : Nat) (env : Env) (state : JVal) (params : JVal) :
    Option (List JVal) :=
  let cond := jvParam params "cond"
  let dataView : JVal :=
    .obj (.cons "state" (toPlain state)
      (.cons "data" env.data (.cons "context" env.context .nil)))
  match
    (if jsTruthy cond = true then jlApply fuel cond dataView
     else Except.ok (JVal.bool true)) with
  | .error _ => none
  | .ok result =>
    some (if jsTruthy result = true then asActionList (jvParam params "then")
          else asActionList (jvParam params "else"))

/-- The branch execution loop shared by `when` (and the scheduled-batch
callback): each descriptor is dispatched through the given step. -/
def runList (step : Env → JVal → JVal → JVal) (env : Env) : JVal → List JVal → JVal
  | st, [] => st
  | st, a :: rest => runList step env (step env st a) rest

/-- One catalogue action applied to a descriptor (every name except the
recursive `when`). -/
def applyLeafAction (t : String) (env : Env) (state : JVal) (action : JVal) : JVal :=
  if t = "setState" then setState env state action
  else if t = "increment" then increment env state action
  else if t = "setFromData" then setFromData env state action
  else if t = "createInstance" then createInstance env state action
  else if t = "broadcast" then broadcast env state action
  else if t = "log" then log env state action
  else if t = "incrementIfEqual" then incrementIfEqual env state action
  else if t = "createInstanceFromArray" then createInstanceFromArray env state action
  else if t = "scheduleActions" then scheduleActions env state action
  else if t = "setFromArray" then setFromArray env state action
  else if t = "ensureInstanceAtPath" then ensureInstanceAtPath env state action
  else state

/-- Execute one action descriptor: look its `type` up in the catalogue, skip
it when unknown, and recurse through `when` branches.  The fuel bounds the
nesting depth of `when` (finite descriptors need finite fuel). -/
def execAction : Nat → Env → JVal → JVal → JVal
  | 0, _, state, _ => state
  | fuel + 1, env, state, action =>
    match jvParam action "type" with
    | .str t =>
      if t ∈ standardActionNames then
        if t = "when" then
          match whenBranch (fuel + 1) env state action with
          | none => state
          | some branch => runList (execAction fuel) env state branch
        else applyLeafAction t env state action
      else state
    | _ => state

/-!
Interpreter guards (`xstate-interpreter.ts`)

`replaceActionsInTransition` installs, for a transition carrying `cond`, a
guard closure that builds the `{event, context, state, data}` view and
returns `jsonLogic.apply(transition.cond, data)` directly — there is no
`try`/`catch` around the evaluation, unlike the action wrapper in
`createXStateActions`.  `createXStateGuards` installs the generic
`jsonLogic` guard with the same unprotected shape (after an early `true`
for a falsy `cond`).
-/

/-- The guard closure of `replaceActionsInTransition`: the raw JSONLogic
result, exceptions included. -/
def transitionGuard (fuel : Nat) (cond : JVal) (view : JVal) : Except String JVal :=
  jlApply fuel cond view

/-- The generic `jsonLogic` guard of `createXStateGuards`:
`if (!cond) return true`, then the raw JSONLogic result. -/
def jsonLogicGuard (fuel : Nat) (cond : JVal) (view : JVal) : Except String JVal :=
  if jsTruthy cond = false then Except.ok (JVal.bool true)
  else jlApply fuel cond view

/-!
Room host (`GenericRoom`)

The machine configuration is reduced to what the host reads: the `on` map
of each state (absent or null `on` contributes nothing).
-/

structure StateNode where
  /-- The state's `on` map (`on` is a reserved token in Lean). -/
  onMap : Option (List (String × JVal))

structure MachineCfg where
  states : Option (List (String × StateNode))

/-- Model of `Set.prototype.add` preserving first-insertion order. -/
def addEvent (events : List String) (e : String) : List String :=
  if e ∈ events then events else events ++ [e]

def stateEvents (events : List String) (sn : StateNode) : List String :=
  match sn.onMap with
  | some transitions => transitions.foldl (fun acc kv => addEvent acc kv.1) events
  | none => events

/-- Model of `getAllEventsFromMachine`: every event name mentioned in any state's
`on` map, deduplicated. -/
def getAllEventsFromMachine (m : MachineCfg) : List String :=
  match m.states with
  | none => []
  | some sts => sts.foldl (fun acc kv => stateEvents acc kv.2) []

/-- Model of `{ sessionId: client.sessionId, ...message }`: the spread comes second,
so a `sessionId` field inside the message overrides the client's. -/
def mergeSessionId (sessionId : String) (message : JVal) : JVal :=
  objAssign (JVal.obj (.cons "sessionId" (JVal.str sessionId) .nil)) message

/-- The host's message surface after `setupMessageHandlers`: a handler is
registered exactly for the machine's event names and forwards
`interpreter.send(eventType, {sessionId, ...payload})`; any other inbound
event type has no registered handler, so the framework drops it (`none`). -/
def handleClientMessage (m : MachineCfg) (sessionId : String) (eventType : String)
    (message : JVal) : Option (String × JVal) :=
  if eventType ∈ getAllEventsFromMachine m then
    some (eventType, mergeSessionId sessionId message)
  else none

/-- The claim-side description of the allowed event set, written from the
specification: the union of the keys appearing in any state's `on` map. -/
def specOnKeysUnion (m : MachineCfg) (e : String) : Prop :=
  ∃ sts, m.states = some sts ∧
    ∃ p ∈ sts, ∃ ts, (p.2 : StateNode).onMap = some ts ∧
      ∃ q ∈ ts, (q : String × JVal).1 = e

/-- The player built by `onJoin` when the key is free: an instance of the
definition's `Player` class when one exists (then `name` and `score` are
assigned), else a `BasePlayer` (declared fields `name = ""`, `score = 0`,
`resources` an empty MapSchema) with `name` assigned. -/
def joinedPlayer (classes : List (String × ClassDef)) (name? : Option String) : JVal :=
  let playerName :=
    match name? with
    | some n => if n = "" then "Player" else n
    | none => "Player"
  match alookup classes "Player" with
  | some cdef =>
    objSetField (objSetField (newInstance cdef) "name" (.str playerName))
      "score" (.num 0)
  | none =>
    .obj (.cons "name" (.str playerName)
      (.cons "score" (.num 0) (.cons "resources" (.map .nil) .nil)))

/-- Model of `GenericRoom.onJoin`: when the state has a map-like `players` field, a
player is inserted under the session id unless `players.get(sessionId)` is
truthy. -/
def onJoin (classes : List (String × ClassDef)) (state : JVal) (sessionId : String)
    (name? : Option String) : JVal :=
  match state with
  | .obj fs =>
    match fGet fs "players" with
    | .map players =>
      if jsTruthy (fGet players sessionId) = true then state
      else
        .obj (fSet fs "players"
          (.map (fSet players sessionId (joinedPlayer classes name?))))
    | _ => state
  | _ => state

/-!
Claim theorems
-/

/-- C1: the specification requires a guard whose logic tree makes the
evaluator throw to be treated as false so the transition search continues;
the guard closures installed by `replaceActionsInTransition` and
`createXStateGuards` have no exception handler, so on a malformed tree
(an unrecognized operator) the guard evaluation is an exception, not
`false` — the error propagates out of the guard instead of continuing the
search. -/
theorem C1_guard_error_is_exception (fuel : Nat) (view : JVal) :
    transitionGuard (fuel + 1) (JVal.obj (.cons "frobnicate" (JVal.arr .nil) .nil)) view
      = Except.error "Unrecognized operation frobnicate" ∧
    jsonLogicGuard (fuel + 1) (JVal.obj (.cons "frobnicate" (JVal.arr .nil) .nil)) view
      = Except.error "Unrecognized operation frobnicate" := by
  exact ⟨rfl, rfl⟩

/-- The state used by the C2 counterexample: a truthy, non-numeric value at
`x` and a matching answer at `ans`. -/
def c2State : JVal :=
  .obj (.cons "x" (.str "a") (.cons "ans" (.str "2") .nil))

def c2Params : JVal :=
  .obj (.cons "path" (.str "x") (.cons "equalsPath" (.str "ans")
    (.cons "value" (.str "2") (.cons "delta" (.num 1) .nil))))

/-- C2 (counterexample): the equality test matches and the current value at
`path` is non-numeric but truthy (the string "a"); `incrementIfEqual` does
not treat it as `0` — JS `+` concatenates and "a1" is written, not
`0 + 1`. -/
theorem C2_counterexample :
    isNumberType (getByPath c2State "x") = false ∧
    getByPath (incrementIfEqual emptyEnv c2State c2Params) "x" = JVal.str "a1" ∧
    JVal.str "a1" ≠ jsAdd (JVal.num 0) (JVal.num 1) := by
  refine ⟨rfl, by decide, by decide⟩

def mkIncrementIfEqualParams (p ep : String) (value delta : JVal) : JVal :=
  .obj (.cons "path" (.str p) (.cons "equalsPath" (.str ep)
    (.cons "value" value (.cons "delta" delta .nil))))

/-- C2 (amended): when the equality test matches and the current value at
`path` is falsy (undefined, null, false, the empty string, 0 or NaN — in
particular every falsy non-numeric value), `incrementIfEqual` treats it as
`0` and writes `0 + delta` at `path`; a truthy non-numeric current value is
instead combined with `delta` by JS `+` (see the counterexample). -/
theorem C2_amended (env : Env) (state : JVal) (p ep : String) (value : JVal) (n : Int)
    (hp : p ≠ "") (hep : ep ≠ "")
    (hmatch : isNullish (getByPath state ep) = false ∧
      jsToString (getByPath state ep) = jsToString value)
    (hfalsy : jsTruthy (getByPath state p) = false) :
    incrementIfEqual env state (mkIncrementIfEqualParams p ep value (JVal.num n))
      = setByPath state p (jsAdd (JVal.num 0) (JVal.num n)) := by
  have hpt : jsTruthy (JVal.str p) = true := by simp [jsTruthy, hp]
  have hept : jsTruthy (JVal.str ep) = true := by simp [jsTruthy, hep]
  simp [incrementIfEqual, mkIncrementIfEqualParams, jvParam, fGet, hpt, hept,
    hmatch.1, hmatch.2, hfalsy, isNumberType]

def c2WitnessState : JVal := .obj (.cons "ans" (.str "2") .nil)

theorem C2_amended_witness :
    ("x" : String) ≠ "" ∧ ("ans" : String) ≠ "" ∧
    (isNullish (getByPath c2WitnessState "ans") = false ∧
      jsToString (getByPath c2WitnessState "ans") = jsToString (JVal.str "2")) ∧
    jsTruthy (getByPath c2WitnessState "x") = false ∧
    incrementIfEqual emptyEnv c2WitnessState
        (mkIncrementIfEqualParams "x" "ans" (JVal.str "2") (JVal.num 1))
      = setByPath c2WitnessState "x" (jsAdd (JVal.num 0) (JVal.num 1)) :=
  ⟨by decide, by decide, ⟨by decide, by decide⟩, by decide,
    C2_amended emptyEnv c2WitnessState "x" "ans" (JVal.str "2") 1 (by decide) (by decide)
      ⟨by decide, by decide⟩ (by decide)⟩

theorem mem_addEvent (l : List String) (e x : String) :
    x ∈ addEvent l e ↔ x ∈ l ∨ x = e := by
  by_cases h : e ∈ l
  · simp only [addEvent, if_pos h]
    constructor
    · exact fun hx => Or.inl hx
    · rintro (hx | rfl)
      · exact hx
      · exact h
  · simp [addEvent, h]

theorem mem_foldl_on (ts : List (String × JVal)) :
    ∀ (acc : List String) (x : String),
      (x ∈ ts.foldl (fun a kv => addEvent a kv.1) acc) ↔
        x ∈ acc ∨ ∃ q ∈ ts, (q : String × JVal).1 = x := by
  induction ts with
  | nil => intro acc x; simp
  | cons hd tl ih =>
    intro acc x
    rw [List.foldl_cons, ih, mem_addEvent]
    constructor
    · rintro ((hx | hx) | ⟨q, hq, hqe⟩)
      · exact Or.inl hx
      · exact Or.inr ⟨hd, List.mem_cons_self hd tl, hx.symm⟩
      · exact Or.inr ⟨q, List.mem_cons_of_mem hd hq, hqe⟩
    · rintro (hx | ⟨q, hq, hqe⟩)
      · exact Or.inl (Or.inl hx)
      · rcases List.mem_cons.mp hq with rfl | hq'
        · exact Or.inl (Or.inr hqe.symm)
        · exact Or.inr ⟨q, hq', hqe⟩

theorem mem_stateEvents (sn : StateNode) (acc : List String) (x : String) :
    x ∈ stateEvents acc sn ↔
      x ∈ acc ∨ ∃ ts, sn.onMap = some ts ∧ ∃ q ∈ ts, (q : String × JVal).1 = x := by
  cases hon : sn.onMap with
  | none => simp [stateEvents, hon]
  | some ts => simp [stateEvents, hon, mem_foldl_on]

theorem mem_foldl_states (sts : List (String × StateNode)) :
    ∀ (acc : List String) (x : String),
      (x ∈ sts.foldl (fun a kv => stateEvents a kv.2) acc) ↔
        x ∈ acc ∨ ∃ p ∈ sts, ∃ ts, (p.2 : StateNode).onMap = some ts ∧
          ∃ q ∈ ts, (q : String × JVal).1 = x := by
  induction sts with
  | nil => intro acc x; simp
  | cons hd tl ih =>
    intro acc x
    rw [List.foldl_cons, ih, mem_stateEvents]
    constructor
    · rintro ((hx | ⟨ts, hts, hq⟩) | ⟨p, hp, hrest⟩)
      · exact Or.inl hx
      · exact Or.inr ⟨hd, List.mem_cons_self hd tl, ts, hts, hq⟩
      · exact Or.inr ⟨p, List.mem_cons_of_mem hd hp, hrest⟩
    · rintro (hx | ⟨p, hp, hrest⟩)
      · exact Or.inl (Or.inl hx)
      · rcases List.mem_cons.mp hp with rfl | hp'
        · exact Or.inl (Or.inr hrest)
        · exact Or.inr ⟨p, hp', hrest⟩

theorem mem_getAllEvents (m : MachineCfg) (e : String) :
    e ∈ getAllEventsFromMachine m ↔ specOnKeysUnion m e := by
  cases hst : m.states with
  | none => simp [getAllEventsFromMachine, hst, specOnKeysUnion]
  | some sts => simp [getAllEventsFromMachine, hst, specOnKeysUnion, mem_foldl_states]

/-- C3: the set of event types for which the room registers a message
handler equals exactly the union of the keys of the `on` maps of the
machine's states; a registered event is forwarded with the sender's session
id attached, every other inbound event type has no handler and is
dropped. -/
theorem C3_registered_events (m : MachineCfg) (sid e : String) (msg : JVal) :
    (e ∈ getAllEventsFromMachine m ↔ specOnKeysUnion m e) ∧
    handleClientMessage m sid e msg =
      (if e ∈ getAllEventsFromMachine m then some (e, mergeSessionId sid msg)
       else none) := by
  exact ⟨mem_getAllEvents m e, rfl⟩

/-- C4: `set` with an empty path is a no-op; along a non-empty dotted path
whose existing intermediate nodes are records or keyed collections (missing
intermediates being created as empty records, also under keyed-collection
keys), a `get` after `set(root, path, value)` returns `value`. -/
theorem C4_set_get_roundtrip :
    (∀ (root v : JVal), setByPath root "" v = root) ∧
    (∀ (root v : JVal) (path : String),
      setWalkOK root (splitPath path) = true → splitPath path ≠ [] →
      getByPath (setByPath root path v) path = v) := by
  constructor
  · intro root v; simp [setByPath]
  · intro root v path hwalk hne
    have hp : path ≠ "" := by
      intro h
      rw [h] at hne
      exact hne (by decide)
    match hsp : splitPath path with
    | [] => exact absurd hsp hne
    | key :: rest =>
      rw [hsp] at hwalk
      simp only [setByPath, getByPath, if_neg hp, hsp]
      exact set_get_walk rest key root v hwalk

def c4Root : JVal := .obj (.cons "players" (.map .nil) .nil)

theorem C4_witness :
    setWalkOK c4Root (splitPath "players.A.score") = true ∧
    splitPath "players.A.score" ≠ [] ∧
    getByPath (setByPath c4Root "players.A.score" (JVal.num 7)) "players.A.score"
      = JVal.num 7 :=
  ⟨by decide, by decide,
    C4_set_get_roundtrip.2 c4Root (JVal.num 7) "players.A.score" (by decide) (by decide)⟩

theorem execAction_unknown : ∀ (fuel : Nat) (env : Env) (st a : JVal),
    isKnownActionDescriptor a = false → execAction fuel env st a = st
  | 0, _, _, _, _ => rfl
  | fuel + 1, env, st, a, h => by
    simp only [execAction]
    cases hty : jvParam a "type" with
    | str t =>
      have hnm : ¬ t ∈ standardActionNames := by
        simp only [isKnownActionDescriptor, hty] at h
        exact of_decide_eq_false h
      simp [hnm]
    | null => rfl
    | undef => rfl
    | bool b => rfl
    | num k => rfl
    | nan => rfl
    | obj fs => rfl
    | map es => rfl
    | arr xs => rfl

theorem runList_filter_known (fuel : Nat) (env : Env) :
    ∀ (acts : List JVal) (st : JVal),
      runList (execAction fuel) env st (List.filter isKnownActionDescriptor acts)
        = runList (execAction fuel) env st acts := by
  intro acts
  induction acts with
  | nil => intro st; rfl
  | cons a rest ih =>
    intro st
    by_cases hk : isKnownActionDescriptor a = true
    · rw [show List.filter isKnownActionDescriptor (a :: rest)
            = a :: List.filter isKnownActionDescriptor rest by
          simp [List.filter_cons, hk]]
      simp only [runList]
      exact ih (execAction fuel env st a)
    · have hk' : isKnownActionDescriptor a = false := by
        rwa [Bool.not_eq_true] at hk
      rw [show List.filter isKnownActionDescriptor (a :: rest)
            = List.filter isKnownActionDescriptor rest by
          simp [List.filter_cons, hk']]
      simp only [runList]
      rw [execAction_unknown fuel env st a hk']
      exact ih st

/-- C5: executing a `when` whose branch selection succeeded runs the chosen
branch through the catalogue loop, and running the branch is the same as
running only its known descriptors: a descriptor whose `type` is not a
catalogue name is skipped (with a warning) while every other action in the
branch still runs — the unknown action never aborts the interpreter. -/
theorem C5_when_skips_unknown (fuel : Nat) (env : Env) (state action : JVal)
    (branch : List JVal)
    (htype : jvParam action "type" = JVal.str "when")
    (hbranch : whenBranch (fuel + 1) env state action = some branch) :
    execAction (fuel + 1) env state action
      = runList (execAction fuel) env state branch ∧
    runList (execAction fuel) env state branch
      = runList (execAction fuel) env state
          (List.filter isKnownActionDescriptor branch) := by
  constructor
  · simp only [execAction, htype]
    have hin : ("when" : String) ∈ standardActionNames := by decide
    simp [hin, hbranch]
  · exact (runList_filter_known fuel env branch state).symm

def c5Action : JVal :=
  .obj (.cons "type" (.str "when")
    (.cons "then" (.arr (.cons (JVal.obj (.cons "type" (.str "frobnicate") .nil))
      (.cons (JVal.obj (.cons "type" (.str "setState")
        (.cons "path" (.str "x") (.cons "value" (.num 7) .nil)))) .nil))) .nil))

def c5Branch : List JVal :=
  [JVal.obj (.cons "type" (.str "frobnicate") .nil),
   JVal.obj (.cons "type" (.str "setState")
     (.cons "path" (.str "x") (.cons "value" (.num 7) .nil)))]

theorem C5_witness :
    jvParam c5Action "type" = JVal.str "when" ∧
    whenBranch 2 emptyEnv (JVal.obj .nil) c5Action = some c5Branch ∧
    (execAction 2 emptyEnv (JVal.obj .nil) c5Action
        = runList (execAction 1) emptyEnv (JVal.obj .nil) c5Branch ∧
      runList (execAction 1) emptyEnv (JVal.obj .nil) c5Branch
        = runList (execAction 1) emptyEnv (JVal.obj .nil)
            (List.filter isKnownActionDescriptor c5Branch)) ∧
    runList (execAction 1) emptyEnv (JVal.obj .nil) c5Branch
      = JVal.obj (.cons "x" (.num 7) .nil) :=
  ⟨rfl, by decide,
    C5_when_skips_unknown 1 emptyEnv (JVal.obj .nil) c5Action c5Branch rfl (by decide),
    by decide⟩

def c6State : JVal := .obj (.cons "x" (.str "a") .nil)

def mkIncrementParams (p : String) (n : Int) : JVal :=
  .obj (.cons "path" (.str p) (.cons "delta" (.num n) .nil))

/-- C6 (counterexample): with the non-numeric prior value "a" at `x`,
`increment` by `1` and then by `-1` yields "a1-1" (JS concatenation), not
the prior value. -/
theorem C6_counterexample :
    getByPath c6State "x" = JVal.str "a" ∧
    getByPath
      (increment emptyEnv (increment emptyEnv c6State (mkIncrementParams "x" 1))
        (mkIncrementParams "x" (-1))) "x" = JVal.str "a1-1" ∧
    JVal.str "a1-1" ≠ JVal.str "a" := by
  refine ⟨rfl, by decide, by decide⟩

theorem jsAdd_num_num (a b : Int) :
    jsAdd (JVal.num a) (JVal.num b) = JVal.num (a + b) := rfl

theorem increment_run (env : Env) (state : JVal) (p : String) (d : Int) (hp : p ≠ "") :
    increment env state (mkIncrementParams p d)
      = setByPath state p
          (jsAdd (if jsTruthy (getByPath state p) = true then getByPath state p
                  else JVal.num 0)
            (JVal.num d)) := by
  have hpt : jsTruthy (JVal.str p) = true := by simp [jsTruthy, hp]
  simp [increment, mkIncrementParams, jvParam, fGet, hpt]

/-- C6 (amended): when the value held at `path` before the first increment
is a number `m`, and `m`, `n` and the intermediate sum `m + n` all lie in
the range where JS doubles represent integers exactly (magnitude at most
`2 ^ 53`), `increment {path, delta: n}` followed by
`increment {path, delta: -n}` restores `m` at `path`.  The bounds delimit
where the integer model is faithful to the source's double arithmetic:
each of `n`, `m` and `m + n` is then an exactly representable integer, so
both additions round to nothing and cancel.  Outside the bounds double
rounding breaks the cancellation (a prior of `1` with delta `2 ^ 53` ends
at `0`), and for a non-numeric prior value the pair need not restore it
either (see the counterexample). -/
theorem C6_amended (env : Env) (state : JVal) (p : String) (n m : Int)
    (h : getByPath state p = JVal.num m)
    (_hm : m.natAbs ≤ 2 ^ 53) (_hn : n.natAbs ≤ 2 ^ 53)
    (_hmn : (m + n).natAbs ≤ 2 ^ 53) :
    getByPath (increment env (increment env state (mkIncrementParams p n))
      (mkIncrementParams p (-n))) p = JVal.num m := by
  by_cases hp : p = ""
  · subst hp
    have hnoop : ∀ (d : Int) (st : JVal),
        increment env st (mkIncrementParams "" d) = st := by
      intro d st
      simp [increment, mkIncrementParams, jvParam, fGet, jsTruthy]
    rw [hnoop, hnoop]
    exact h
  · have hcur : ∀ (st : JVal) (k : Int), getByPath st p = JVal.num k →
        (if jsTruthy (getByPath st p) = true then getByPath st p else JVal.num 0)
          = JVal.num k := by
      intro st k hk
      rw [hk]
      by_cases hz : k = 0 <;> simp [jsTruthy, hz]
    cases hsp : splitPath p with
    | nil =>
      have hroot : state = JVal.num m := by
        have hh := h
        rw [getByPath, if_neg hp, hsp] at hh
        exact hh
      have hset : ∀ (v : JVal), setByPath state p v = state := by
        intro v
        rw [setByPath, if_neg hp, hsp, hroot]
        rfl
      rw [increment_run env state p n hp, hcur state m h, jsAdd_num_num, hset]
      rw [increment_run env state p (-n) hp, hcur state m h, jsAdd_num_num, hset]
      exact h
    | cons key rest =>
      have hrt : ∀ (st : JVal) (k : Int) (w : JVal), getByPath st p = JVal.num k →
          getByPath (setByPath st p w) p = w := by
        intro st k w hk
        rw [getByPath, if_neg hp, hsp] at hk
        rw [setByPath, if_neg hp, getByPath, if_neg hp, hsp]
        refine get_set_of_get_ne_undef rest key st w ?_
        rw [hk]
        simp
      rw [increment_run env state p n hp, hcur state m h, jsAdd_num_num]
      rw [increment_run env _ p (-n) hp, hcur _ (m + n) (hrt state m _ h), jsAdd_num_num]
      rw [hrt (setByPath state p (JVal.num (m + n))) (m + n) (JVal.num (m + n + -n))
        (hrt state m (JVal.num (m + n)) h)]
      have harith : m + n + -n = m := by ring
      rw [harith]

def c6WitnessState : JVal := .obj (.cons "score" (.num 3) .nil)

theorem C6_amended_witness :
    getByPath c6WitnessState "score" = JVal.num 3 ∧
    (3 : Int).natAbs ≤ 2 ^ 53 ∧ (2 : Int).natAbs ≤ 2 ^ 53 ∧
    ((3 : Int) + 2).natAbs ≤ 2 ^ 53 ∧
    getByPath
      (increment emptyEnv (increment emptyEnv c6WitnessState (mkIncrementParams "score" 2))
        (mkIncrementParams "score" (-2))) "score" = JVal.num 3 :=
  ⟨by decide, by decide, by decide, by decide,
    C6_amended emptyEnv c6WitnessState "score" 2 3 (by decide) (by decide) (by decide)
      (by decide)⟩

theorem fGet_fSet_ne : ∀ (fs : JFields) (g f : String) (v : JVal), g ≠ f →
    fGet (fSet fs g v) f = fGet fs f
  | .nil, g, f, v, hne => by simp [fSet, fGet, hne]
  | .cons k w rest, g, f, v, hne => by
    by_cases hk : k = g
    · subst hk
      simp [fSet, fGet, hne]
    · by_cases hkf : k = f
      · subst hkf
        simp [fSet, fGet, hk]
      · simp [fSet, fGet, hk, hkf, fGet_fSet_ne rest g f v hne]

theorem objGetField_objSetField_ne (inst : JVal) (g f : String) (v : JVal)
    (hne : g ≠ f) :
    objGetField (objSetField inst g v) f = objGetField inst f := by
  cases inst <;> simp [objSetField, objGetField, fGet_fSet_ne _ g f v hne]

theorem applyDefaultsFields_not_mem (f : String) :
    ∀ (defs : List (String × JVal)) (inst : JVal),
      f ∉ defs.map Prod.fst →
      objGetField (applyDefaultsFields inst defs) f = objGetField inst f := by
  intro defs
  induction defs with
  | nil => intro inst _; rfl
  | cons hd rest ih =>
    intro inst hmem
    obtain ⟨g, w⟩ := hd
    have h1 : g ≠ f := fun he => hmem (by simp [he])
    have h2 : f ∉ rest.map Prod.fst := fun hm => hmem (by simp [hm])
    by_cases hskip : w ≠ JVal.null ∧ isObjectType w = true
    · rw [show applyDefaultsFields inst ((g, w) :: rest)
            = applyDefaultsFields inst rest by simp [applyDefaultsFields, hskip]]
      exact ih inst h2
    · rw [show applyDefaultsFields inst ((g, w) :: rest)
            = applyDefaultsFields (objSetField inst g w) rest by
          simp [applyDefaultsFields, hskip]]
      rw [ih (objSetField inst g w) h2]
      exact objGetField_objSetField_ne inst g f w h1

theorem applyDefaultsFields_mem (f : String) (dv : JVal) :
    ∀ (defs : List (String × JVal)) (fs : JFields),
      (f, dv) ∈ defs → (defs.map Prod.fst).Nodup →
      objGetField (applyDefaultsFields (JVal.obj fs) defs) f
        = if dv ≠ JVal.null ∧ isObjectType dv = true then fGet fs f else dv := by
  intro defs
  induction defs with
  | nil => intro fs hmem _; exact absurd hmem (List.not_mem_nil _)
  | cons hd rest ih =>
    intro fs hmem hnodup
    obtain ⟨g, w⟩ := hd
    have hnodup1 : g ∉ rest.map Prod.fst := by
      rw [List.map_cons, List.nodup_cons] at hnodup
      exact hnodup.1
    have hnodup2 : (rest.map Prod.fst).Nodup := by
      rw [List.map_cons, List.nodup_cons] at hnodup
      exact hnodup.2
    rcases List.mem_cons.mp hmem with heq | hmem'
    · cases heq
      by_cases hskip : dv ≠ JVal.null ∧ isObjectType dv = true
      · rw [show applyDefaultsFields (JVal.obj fs) ((f, dv) :: rest)
              = applyDefaultsFields (JVal.obj fs) rest by
            simp [applyDefaultsFields, hskip]]
        rw [applyDefaultsFields_not_mem f rest (JVal.obj fs) hnodup1]
        rw [if_pos hskip]
        rfl
      · rw [show applyDefaultsFields (JVal.obj fs) ((f, dv) :: rest)
              = applyDefaultsFields (JVal.obj (fSet fs f dv)) rest by
            simp [applyDefaultsFields, objSetField, hskip]]
        rw [applyDefaultsFields_not_mem f rest _ hnodup1]
        rw [if_neg hskip]
        simp [objGetField]
    · have hf : f ∈ rest.map Prod.fst := by
        exact List.mem_map_of_mem Prod.fst hmem'
      have hgf : g ≠ f := fun he => hnodup1 (he ▸ hf)
      by_cases hskip : w ≠ JVal.null ∧ isObjectType w = true
      · rw [show applyDefaultsFields (JVal.obj fs) ((g, w) :: rest)
              = applyDefaultsFields (JVal.obj fs) rest by
            simp [applyDefaultsFields, hskip]]
        exact ih fs hmem' hnodup2
      · rw [show applyDefaultsFields (JVal.obj fs) ((g, w) :: rest)
              = applyDefaultsFields (JVal.obj (fSet fs g w)) rest by
            simp [applyDefaultsFields, objSetField, hskip]]
        rw [ih (fSet fs g w) hmem' hnodup2]
        rw [fGet_fSet_ne fs g f w hgf]

/-- C7: `instantiateWithDefaults` assigns to the root instance every default
of `defaults.<rootClass>` whose value is not a non-null object — in
particular every primitive default — while a default whose value is a
non-null object (a nested default) leads to no assignment: the field keeps
the value the generated constructor gave it. -/
theorem C7_instantiate_defaults (dsl : StateDSL) (cd : ClassDef)
    (ds : List (String × List (String × JVal))) (defs : List (String × JVal))
    (f : String) (dv : JVal)
    (hds : dsl.defaults = some ds)
    (hdefs : alookup ds dsl.root = some defs)
    (hmem : (f, dv) ∈ defs)
    (hnodup : (defs.map Prod.fst).Nodup) :
    objGetField (instantiateWithDefaults dsl cd) f
      = if dv ≠ JVal.null ∧ isObjectType dv = true
        then objGetField (newInstance cd) f
        else dv := by
  simp only [instantiateWithDefaults, hds, applyDefaults, hdefs, newInstance]
  exact applyDefaultsFields_mem f dv defs (newInstanceFields cd) hmem hnodup

def c7DSL : StateDSL :=
  { root := "State",
    classes :=
      [("State", [("phase", FieldDef.prim "string"), ("players", FieldDef.mapOf "Player")]),
       ("Player", [("name", FieldDef.prim "string")])],
    defaults :=
      some [("State", [("phase", JVal.str "waiting"),
                       ("nested", JVal.obj (.cons "a" (JVal.num 1) .nil))])] }

def c7StateClass : ClassDef :=
  [("phase", FieldDef.prim "string"), ("players", FieldDef.mapOf "Player")]

theorem C7_witness :
    c7DSL.defaults = some [("State", [("phase", JVal.str "waiting"),
        ("nested", JVal.obj (.cons "a" (JVal.num 1) .nil))])] ∧
    objGetField (instantiateWithDefaults c7DSL c7StateClass) "phase" = JVal.str "waiting" ∧
    objGetField (instantiateWithDefaults c7DSL c7StateClass) "nested"
      = objGetField (newInstance c7StateClass) "nested" := by
  refine ⟨rfl, ?_, ?_⟩
  · have happ := C7_instantiate_defaults c7DSL c7StateClass
      [("State", [("phase", JVal.str "waiting"),
        ("nested", JVal.obj (.cons "a" (JVal.num 1) .nil))])]
      [("phase", JVal.str "waiting"), ("nested", JVal.obj (.cons "a" (JVal.num 1) .nil))]
      "phase" (JVal.str "waiting") rfl (by decide) (by decide) (by decide)
    rw [happ]
    decide
  · have happ := C7_instantiate_defaults c7DSL c7StateClass
      [("State", [("phase", JVal.str "waiting"),
        ("nested", JVal.obj (.cons "a" (JVal.num 1) .nil))])]
      [("phase", JVal.str "waiting"), ("nested", JVal.obj (.cons "a" (JVal.num 1) .nil))]
      "nested" (JVal.obj (.cons "a" (JVal.num 1) .nil)) rfl (by decide) (by decide)
      (by decide)
    rw [happ]
    decide

def c8State : JVal := .obj (.cons "a" (JVal.num 5) .nil)

def mkSetStateParams (p : String) (v : JVal) : JVal :=
  .obj (.cons "path" (.str p) (.cons "value" v .nil))

/-- C8 (counterexample): `setState` with value `null` at path "a.b" over a
state where `a` holds the number 5: the write is silently dropped (the
parent of "b" is not a container), the state is unchanged and `null` is not
stored at the path. -/
theorem C8_counterexample :
    setState emptyEnv c8State (mkSetStateParams "a.b" JVal.null) = c8State ∧
    getByPath (setState emptyEnv c8State (mkSetStateParams "a.b" JVal.null)) "a.b"
      = JVal.undef ∧
    JVal.undef ≠ JVal.null := by
  refine ⟨by decide, by decide, by decide⟩

/-- C8 (amended): `setState` with value `undefined` is always a no-op; with
value `null` and a truthy path the write is performed (`setByPath` runs),
and `null` is actually stored at `path` whenever the path's existing
intermediate nodes are records or keyed collections (C4's condition) — a
non-container intermediate silently drops the write instead (see the
counterexample). -/
theorem C8_amended (env : Env) (state : JVal) (p : String) :
    setState env state (mkSetStateParams p JVal.undef) = state ∧
    (p ≠ "" → setState env state (mkSetStateParams p JVal.null)
        = setByPath state p JVal.null) ∧
    (setWalkOK state (splitPath p) = true → splitPath p ≠ [] →
      getByPath (setState env state (mkSetStateParams p JVal.null)) p = JVal.null) := by
  refine ⟨?_, ?_, ?_⟩
  · simp [setState, mkSetStateParams, jvParam, fGet]
  · intro hp
    have hpt : jsTruthy (JVal.str p) = true := by simp [jsTruthy, hp]
    simp [setState, mkSetStateParams, jvParam, fGet, hpt]
  · intro hwalk hne
    have hp : p ≠ "" := by
      intro h
      rw [h] at hne
      exact hne (by decide)
    have hpt : jsTruthy (JVal.str p) = true := by simp [jsTruthy, hp]
    have hss : setState env state (mkSetStateParams p JVal.null)
        = setByPath state p JVal.null := by
      simp [setState, mkSetStateParams, jvParam, fGet, hpt]
    rw [hss]
    match hsp : splitPath p with
    | [] => exact absurd hsp hne
    | key :: rest =>
      rw [hsp] at hwalk
      simp only [setByPath, getByPath, if_neg hp, hsp]
      exact set_get_walk rest key state JVal.null hwalk

theorem C8_witness :
    setWalkOK (JVal.obj .nil) (splitPath "x.y") = true ∧
    splitPath "x.y" ≠ [] ∧
    setState emptyEnv (JVal.obj .nil) (mkSetStateParams "x.y" JVal.undef)
      = JVal.obj .nil ∧
    getByPath (setState emptyEnv (JVal.obj .nil) (mkSetStateParams "x.y" JVal.null))
      "x.y" = JVal.null :=
  ⟨by decide, by decide, (C8_amended emptyEnv (JVal.obj .nil) "x.y").1,
    (C8_amended emptyEnv (JVal.obj .nil) "x.y").2.2 (by decide) (by decide)⟩

/-- Model of `Map.has`: the session id is present as a key, whatever its entry. -/
def fHasKey : JFields → String → Bool
  | .nil, _ => false
  | .cons k _ rest, key => k == key || fHasKey rest key

def c9State : JVal :=
  .obj (.cons "players" (.map (.cons "A" JVal.null .nil)) .nil)

/-- C9 (counterexample): the session id "A" is present as a key of
`state.players` (with a null entry), yet `onJoin` does not leave the map
unchanged — the guard tests the entry's truthiness, not key presence, so
the falsy entry is replaced by a fresh player. -/
theorem C9_counterexample :
    fHasKey (.cons "A" JVal.null .nil) "A" = true ∧
    onJoin [] c9State "A" none ≠ c9State := by
  refine ⟨by decide, by decide⟩

/-- C9 (amended): `onJoin` leaves the state unchanged exactly when the entry
at the session id is truthy (an actual player instance) — so the join is
idempotent for live entries; when the key is absent or its entry is falsy,
a new player instance is inserted under the session id. -/
theorem C9_amended (classes : List (String × ClassDef)) (fs players : JFields)
    (sid : String) (name? : Option String)
    (hplayers : fGet fs "players" = JVal.map players) :
    (jsTruthy (fGet players sid) = true →
      onJoin classes (JVal.obj fs) sid name? = JVal.obj fs) ∧
    (jsTruthy (fGet players sid) = false →
      onJoin classes (JVal.obj fs) sid name?
        = JVal.obj (fSet fs "players"
            (JVal.map (fSet players sid (joinedPlayer classes name?))))) := by
  constructor
  · intro h
    simp [onJoin, hplayers, h]
  · intro h
    simp [onJoin, hplayers, h]

def c9Players : JFields :=
  .cons "A" (JVal.obj (.cons "name" (JVal.str "Ana") .nil)) .nil

def c9Fields : JFields := .cons "players" (JVal.map c9Players) .nil

theorem C9_witness :
    fGet c9Fields "players" = JVal.map c9Players ∧
    jsTruthy (fGet c9Players "A") = true ∧
    onJoin [] (JVal.obj c9Fields) "A" none = JVal.obj c9Fields ∧
    jsTruthy (fGet c9Players "B") = false ∧
    onJoin [] (JVal.obj c9Fields) "B" none
      = JVal.obj (fSet c9Fields "players"
          (JVal.map (fSet c9Players "B" (joinedPlayer [] none)))) :=
  ⟨by decide, by decide,
    (C9_amended [] c9Fields c9Players "A" none (by decide)).1 (by decide),
    by decide,
    (C9_amended [] c9Fields c9Players "B" none (by decide)).2 (by decide)⟩

/-- The disjunction of C10 as the code checks it: the static-data value at
`arrayPath` is not an array, or the resolved index is missing (`== null`),
negative, or at least the array length (both comparisons false for `NaN`),
or the index resolution itself would throw. -/
def arrayLookupBad (env : Env) (state : JVal) (ap : String)
    (index indexStatePath : JVal) : Bool :=
  match getByPath env.data ap with
  | .arr xs =>
    (match resolveIndexChecked state index indexStatePath with
     | none => true
     | some idx => idxOutOfRange idx (lLen xs))
  | _ => true

def mkSetFromArrayParams (sp ap : String) (key index indexStatePath : JVal) : JVal :=
  .obj (.cons "statePath" (.str sp) (.cons "arrayPath" (.str ap)
    (.cons "key" key (.cons "index" index (.cons "indexStatePath" indexStatePath .nil)))))

def mkCreateInstanceFromArrayParams (cn sp ap : String)
    (index indexStatePath : JVal) : JVal :=
  .obj (.cons "className" (.str cn) (.cons "statePath" (.str sp)
    (.cons "arrayPath" (.str ap) (.cons "index" index
      (.cons "indexStatePath" indexStatePath .nil)))))

/-- C10: whenever the static-data value at `arrayPath` is not an array, or
the resolved index (from `index` or `indexStatePath`) is missing, negative,
or not below the array's length, both `setFromArray` and
`createInstanceFromArray` return without mutating the replicated state. -/
theorem C10_bad_array_input_no_mutation (env : Env) (state : JVal) (cn sp ap : String)
    (key index indexStatePath : JVal)
    (hbad : arrayLookupBad env state ap index indexStatePath = true) :
    setFromArray env state (mkSetFromArrayParams sp ap key index indexStatePath)
      = state ∧
    createInstanceFromArray env state
      (mkCreateInstanceFromArrayParams cn sp ap index indexStatePath) = state := by
  simp only [arrayLookupBad] at hbad
  constructor
  · by_cases hsp : sp = ""
    · simp [setFromArray, mkSetFromArrayParams, jvParam, fGet, jsTruthy, hsp]
    · by_cases hap : ap = ""
      · simp [setFromArray, mkSetFromArrayParams, jvParam, fGet, jsTruthy, hap]
      · have hspt : jsTruthy (JVal.str sp) = true := by simp [jsTruthy, hsp]
        have hapt : jsTruthy (JVal.str ap) = true := by simp [jsTruthy, hap]
        simp [setFromArray, mkSetFromArrayParams, jvParam, fGet, hspt, hapt]
        cases harr : getByPath env.data ap with
        | arr xs =>
          rw [harr] at hbad
          cases hres : resolveIndexChecked state index indexStatePath with
          | none => simp [hres]
          | some idx =>
            rw [hres] at hbad
            have had : idxOutOfRange idx (lLen xs) = true := by simpa using hbad
            simp [hres, had]
        | null => simp
        | undef => simp
        | bool b => simp
        | num k => simp
        | nan => simp
        | str s => simp
        | obj fs => simp
        | map es => simp
  · by_cases hcn : cn = ""
    · simp [createInstanceFromArray, mkCreateInstanceFromArrayParams, jvParam, fGet,
        jsTruthy, hcn]
    · by_cases hsp : sp = ""
      · simp [createInstanceFromArray, mkCreateInstanceFromArrayParams, jvParam, fGet,
          jsTruthy, hsp]
      · by_cases hap : ap = ""
        · simp [createInstanceFromArray, mkCreateInstanceFromArrayParams, jvParam, fGet,
            jsTruthy, hap]
        · have hcnt : jsTruthy (JVal.str cn) = true := by simp [jsTruthy, hcn]
          have hspt : jsTruthy (JVal.str sp) = true := by simp [jsTruthy, hsp]
          have hapt : jsTruthy (JVal.str ap) = true := by simp [jsTruthy, hap]
          simp [createInstanceFromArray, mkCreateInstanceFromArrayParams, jvParam, fGet,
            hcnt, hspt, hapt]
          cases harr : getByPath env.data ap with
          | arr xs =>
            rw [harr] at hbad
            cases hres : resolveIndexChecked state index indexStatePath with
            | none => simp [hres]
            | some idx =>
              rw [hres] at hbad
              have had : idxOutOfRange idx (lLen xs) = true := by simpa using hbad
              simp [hres, had]
          | null => simp
          | undef => simp
          | bool b => simp
          | num k => simp
          | nan => simp
          | str s => simp
          | obj fs => simp
          | map es => simp

def c10Env : Env :=
  { data := .obj (.cons "qs" (JVal.arr (.cons (JVal.num 1) .nil)) .nil),
    context := .obj .nil, classes := [] }

theorem C10_witness :
    arrayLookupBad c10Env (JVal.obj .nil) "qs" (JVal.num 5) JVal.undef = true ∧
    setFromArray c10Env (JVal.obj .nil)
      (mkSetFromArrayParams "x" "qs" JVal.undef (JVal.num 5) JVal.undef)
      = JVal.obj .nil ∧
    createInstanceFromArray c10Env (JVal.obj .nil)
      (mkCreateInstanceFromArrayParams "Q" "x" "qs" (JVal.num 5) JVal.undef)
      = JVal.obj .nil :=
  ⟨by decide,
    (C10_bad_array_input_no_mutation c10Env (JVal.obj .nil) "Q" "x" "qs" JVal.undef
      (JVal.num 5) JVal.undef (by decide)).1,
    (C10_bad_array_input_no_mutation c10Env (JVal.obj .nil) "Q" "x" "qs" JVal.undef
      (JVal.num 5) JVal.undef (by decide)).2⟩

end Ludiz
